import Mathlib

/-!
Verification of the path-addressable tree accessor (`pyxavi/dictionary.py`).

Shallow embedding notes:
* A tree node is a closed variant type `Node` over the dynamic Python values the
  class manipulates: `None` (`null`), booleans, integers, strings, lists
  (`seq`) and dicts (`map`, an insertion-ordered association list).
* Python exceptions are modelled with `Except`: read-only operations return
  `Except PyErr a`; mutating operations return `Except (PyErr × Node) Node`
  where the error payload carries the state of the tree at the moment the
  exception is raised, so that partial mutation (or its absence) is visible.
* The path separator is fixed to the default `"."` (`PATH_SEPARATOR_CHAR`).
* Python `str.split(".")` and `".".join` are modelled by `splitDot`/`joinDot`
  over the character list of the string; `param_name.find(".") > 0` holds
  exactly when the split has at least two pieces and the first piece is
  non-empty (the first occurrence of the separator is at an index ≥ 1), which
  is how `findsSep` is stated.
* `__recursive_set` recurses on `self._separator.join(pieces[1:])` and then
  re-splits that string; since every piece produced by a split is free of the
  separator character, re-splitting the joined tail yields the tail again, so
  the worker `rset` recurses on the list of pieces directly, reproducing the
  `find(sep) > 0` test on the joined tail through the shape of the list
  (`tail` non-empty and head piece non-empty).
* `str.isdecimal` is modelled for the ASCII digits, which is what every path
  in the specification uses.
-/

/-- The Python exception kinds the module can raise. -/
inductive PyErr where
  | indexError
  | keyError
  | typeError
  | valueError
  | runtimeError
deriving DecidableEq, Repr

/-- A dynamic value of the tree: `None`, a scalar, a list or a dict
(association list in insertion order). -/
inductive Node where
  | null
  | bool (b : Bool)
  | int (n : Int)
  | str (s : String)
  | seq (l : List Node)
  | map (m : List (String × Node))

/-- `n is None` in Python. -/
def Node.isNull : Node → Bool
  | .null => true
  | _ => false

/-- Python truthiness of a node (`if self._content:`). -/
def pyTruthy : Node → Bool
  | .null => false
  | .bool b => b
  | .int n => n != 0
  | .str s => s != ""
  | .seq l => !l.isEmpty
  | .map m => !m.isEmpty

/-- Equality test of a Python `str` against a dynamic value, as used by
`item in some_list` (only a `str` element can compare equal to a `str`). -/
def isStrNode (s : String) : Node → Bool
  | .str t => s = t
  | _ => false

/-- "pat in hay" for Python strings: substring occurrence. -/
def subOccurs (hay pat : List Char) : Bool :=
  match hay with
  | [] => pat.isEmpty
  | _ :: t => pat.isPrefixOf hay || subOccurs t pat

/-- Splitting a character list at every occurrence of the separator `'.'`,
exactly as Python's `str.split(".")` (keeps empty pieces, `[] ↦ [""]`). -/
def splitChars : List Char → List (List Char)
  | [] => [[]]
  | c :: rest =>
    if c = '.' then [] :: splitChars rest
    else
      match splitChars rest with
      | [] => [[c]]
      | h :: t => (c :: h) :: t

/-- `param_name.split(self._separator)` with the default separator. -/
def splitDot (s : String) : List String :=
  (splitChars s.data).map (fun l => ⟨l⟩)

/-- `self._separator.join(pieces)` with the default separator. -/
def joinDot : List String → String
  | [] => ""
  | [s] => s
  | s :: rest => s ++ "." ++ joinDot rest

/-- `param_name.find(self._separator) > 0`: the first occurrence of the
separator sits at an index ≥ 1, i.e. the split has a second piece and the
first piece is non-empty. -/
def findsSep (s : String) : Bool :=
  match splitDot s with
  | [] => false
  | p0 :: tail => !tail.isEmpty && p0 != ""

/-- `str.isdecimal` restricted to ASCII digits: non-empty and all digits. -/
def decChars (l : List Char) : Bool :=
  !l.isEmpty && l.all Char.isDigit

/-- The purely lexical classification used by `_is_int` on a non-empty
segment: optional sign followed by decimal digits. -/
def isIntLex (s : String) : Bool :=
  match s.data with
  | [] => false
  | c :: rest => if c = '-' || c = '+' then decChars rest else decChars (c :: rest)

/-- `Dictionary._is_int`: `element[0]` raises `IndexError` on the empty
string, otherwise the check is lexical. -/
def pyIsInt (s : String) : Except PyErr Bool :=
  match s.data with
  | [] => .error .indexError
  | _ :: _ => .ok (isIntLex s)

/-- Numeric value of the decimal digits of a character list. -/
def digitsToNat (l : List Char) : Nat :=
  l.foldl (fun n c => n * 10 + (c.toNat - 48)) 0

/-- Python `int(item)` for a segment that passed `_is_int`. -/
def pyToInt (s : String) : Int :=
  match s.data with
  | '-' :: rest => -(digitsToNat rest : Int)
  | '+' :: rest => (digitsToNat rest : Int)
  | l => (digitsToNat l : Int)

/-- Python list indexing: `l[i]` is valid for `-len ≤ i < len`, negative
indices counting from the end; returns the positional index. -/
def pyIdx (len : Nat) (i : Int) : Option Nat :=
  if 0 ≤ i then
    if i < (len : Int) then some i.toNat else none
  else
    if 0 ≤ (len : Int) + i then some ((len : Int) + i).toNat else none

/-- `Dictionary._is_out_of_range`: `list_to_check[index]` raises `IndexError`
exactly when the index is invalid in Python's sense. -/
def isOutOfRange (i : Int) (l : List Node) : Bool :=
  (pyIdx l.length i).isNone

/-- First value bound to a key in an association list (Python dict lookup). -/
def mapGet (m : List (String × Node)) (k : String) : Option Node :=
  match m with
  | [] => none
  | (k0, v0) :: rest => if k0 = k then some v0 else mapGet rest k

/-- `k in d` for a Python dict. -/
def mapMem (m : List (String × Node)) (k : String) : Bool :=
  match m with
  | [] => false
  | (k0, _) :: rest => k0 = k || mapMem rest k

/-- `d[k] = v` for a Python dict: overwrite in place if present (keys of a
Python dict are unique, so replacing the first binding is the dict update),
else append, preserving insertion order. -/
def mapSet (m : List (String × Node)) (k : String) (v : Node) : List (String × Node) :=
  match m with
  | [] => [(k, v)]
  | (k0, v0) :: rest => if k0 = k then (k, v) :: rest else (k0, v0) :: mapSet rest k v

/-- `del d[k]` for a Python dict: remove the (unique) binding of `k`. -/
def mapDel (m : List (String × Node)) (k : String) : List (String × Node) :=
  match m with
  | [] => []
  | (k0, v0) :: rest => if k0 = k then rest else (k0, v0) :: mapDel rest k

/-- Keys of an association list are pairwise distinct (always true of a list
that models an actual Python dict). -/
def keysNodup (m : List (String × Node)) : Bool :=
  match m with
  | [] => true
  | (k0, _) :: rest => !(mapMem rest k0) && keysNodup rest

/-- `key in container` for a dynamic container: dict key membership, list
element membership, substring test on strings; `TypeError` on non-iterables. -/
def pyContains (container : Node) (key : String) : Except PyErr Bool :=
  match container with
  | .map m => .ok (mapMem m key)
  | .seq l => .ok (l.any (isStrNode key))
  | .str s => .ok (subOccurs s.data key.data)
  | _ => .error .typeError

/-- One step of the multi-segment walk of `Dictionary.get` (the
`for item in split` loop): a numeric segment over a list descends (`recurse`)
when the index is valid and the element is not `None`, otherwise the default
is returned; a key segment over a dict likewise; membership tests against
lists, strings and non-iterables reproduce the Python semantics of
`item in local_content` followed by `local_content[item]`. -/
def goGetStep (item : String) (default : Node) (node : Node)
    (recurse : Node → Except PyErr Node) : Except PyErr Node :=
  match pyIsInt item with
  | .error e => .error e
  | .ok true =>
    match node with
    | .seq l =>
      if pyToInt item < (l.length : Int) then
        match pyIdx l.length (pyToInt item) with
        | some j =>
          let e := l.getD j .null
          if e.isNull then .ok default else recurse e
        | none => .error .indexError
      else .ok default
    | _ => .ok default
  | .ok false =>
    match node with
    | .map m =>
      match mapGet m item with
      | some v => if v.isNull then .ok default else recurse v
      | none => .ok default
    | .seq l => if l.any (isStrNode item) then .error .typeError else .ok default
    | .str s => if subOccurs s.data item.data then .error .typeError else .ok default
    | _ => .error .typeError

def goGet (node : Node) (items : List String) (default : Node) : Except PyErr Node :=
  match items with
  | [] => .ok node
  | item :: rest => goGetStep item default node (fun sub => goGet sub rest default)

/-- The single-segment branch of `Dictionary.get`:
`self._content[param_name] if self._content and param_name in self._content
else default_value`. -/
def singleGet (content : Node) (k : String) (default : Node) : Except PyErr Node :=
  if pyTruthy content then
    match pyContains content k with
    | .error e => .error e
    | .ok true =>
      match content with
      | .map m =>
        match mapGet m k with
        | some v => .ok v
        | none => .error .keyError
      | _ => .error .typeError
    | .ok false => .ok default
  else .ok default

/-- `Dictionary.get(param_name, default_value)`. -/
def pyGet (content : Node) (param : String) (default : Node) : Except PyErr Node :=
  if findsSep param then goGet content (splitDot param) default
  else singleGet content param default

/-- `Dictionary._get_focused_key`. -/
def pyGetFocusedKey (param : String) : String :=
  if findsSep param then (splitDot param).getLastD "" else param

/-- `Dictionary.get_parent`: `get` on the rejoined initial pieces, or the
root content itself for a separator-free path. -/
def pyGetParent (content : Node) (param : String) : Except PyErr Node :=
  if findsSep param then pyGet content (joinDot (splitDot param).dropLast) .null
  else .ok content

/-- `Dictionary.key_exists`. -/
def pyKeyExists (content : Node) (param : String) : Except PyErr Bool :=
  match pyGetParent content param with
  | .error e => .error e
  | .ok parent =>
    let key := pyGetFocusedKey param
    if parent.isNull then .ok false
    else
      match parent with
      | .seq l =>
        match pyIsInt key with
        | .error e => .error e
        | .ok true => .ok (!(isOutOfRange (pyToInt key) l))
        | .ok false => .ok false
      | .map m => .ok (mapMem m key)
      | _ => .ok false

/-- The gap-filling loop of `__recursive_set` for a terminal index write that
is not below the current length: `for idx in range(0, param_name + 1)` keeps
every index that is already in range and appends `None` (or `value` at the
target index) whenever `_is_out_of_range` fires on the growing list. -/
def appendFillStep (target : Nat) (v : Node) (acc : List Node) (idx : Nat) : List Node :=
  if (pyIdx acc.length (idx : Int)).isSome then acc
  else acc ++ [if idx = target then v else Node.null]

def appendFill (l : List Node) (target : Nat) (v : Node) : List Node :=
  (List.range (target + 1)).foldl (appendFillStep target v) l

/-- The terminal (separator-free) branch of `__recursive_set`, acting on the
`dictionary` argument. The final `else` of the Python code rebinds the local
variable (`dictionary = {param_name: value}`), which has no effect on the
caller's tree, hence the unchanged `dictionary` result for a `None` target. -/
def rsetSingle (key : String) (value : Node) (dictionary : Node) :
    Except (PyErr × Node) Node :=
  match pyIsInt key with
  | .error e => .error (e, dictionary)
  | .ok true =>
    match dictionary with
    | .seq l =>
      if pyToInt key < (l.length : Int) then
        match pyIdx l.length (pyToInt key) with
        | some j => .ok (.seq (l.set j value))
        | none => .error (.indexError, dictionary)
      else .ok (.seq (appendFill l (pyToInt key).toNat value))
    | _ => .error (.valueError, dictionary)
  | .ok false =>
    if dictionary.isNull then .ok dictionary
    else
      match dictionary with
      | .map m => .ok (.map (mapSet m key value))
      | _ => .error (.typeError, dictionary)

/-- The non-terminal step of `Dictionary.__recursive_set` for the leading
piece of a multi-piece path: descend into a valid, non-`None` list element or
an existing dict key (`recurse` is the recursive call on the joined tail),
raising `ValueError`/`RuntimeError` exactly where the Python code does.
Errors carry the (unchanged or rebuilt) state of the `dictionary` argument at
the moment the exception propagates. -/
def rsetStep (p0 : String) (dictionary : Node)
    (recurse : Node → Except (PyErr × Node) Node) : Except (PyErr × Node) Node :=
  match pyIsInt p0 with
  | .error e => .error (e, dictionary)
  | .ok true =>
    match dictionary with
    | .seq l =>
      if pyToInt p0 < (l.length : Int) then
        match pyIdx l.length (pyToInt p0) with
        | some j =>
          let e := l.getD j .null
          if e.isNull then .error (.runtimeError, dictionary)
          else
            match recurse e with
            | .ok sub => .ok (.seq (l.set j sub))
            | .error (er, sub) => .error (er, .seq (l.set j sub))
        | none => .error (.indexError, dictionary)
      else .error (.runtimeError, dictionary)
    | _ => .error (.valueError, dictionary)
  | .ok false =>
    match dictionary with
    | .map m =>
      match mapGet m p0 with
      | none => .error (.runtimeError, dictionary)
      | some v =>
        match recurse v with
        | .ok sub => .ok (.map (mapSet m p0 sub))
        | .error (er, sub) => .error (er, .map (mapSet m p0 sub))
    | _ => .error (.runtimeError, dictionary)

/-- `Dictionary.__recursive_set` on the pieces of the split path. The
recursive Python call re-splits `sep.join(pieces[1:])`; the pieces of a split
never contain the separator, so the `find(sep) > 0` test on the joined tail
reduces to the shape of the list: a lone piece, or a leading empty piece,
lands in the separator-free branch with the joined string as the key. -/
def rset (pieces : List String) (value : Node) (dictionary : Node) :
    Except (PyErr × Node) Node :=
  match pieces with
  | [] => rsetSingle "" value dictionary
  | p0 :: tail =>
    if tail.isEmpty then rsetSingle p0 value dictionary
    else if p0 = "" then rsetSingle (joinDot (p0 :: tail)) value dictionary
    else rsetStep p0 dictionary (fun sub => rset tail value sub)

/-- `Dictionary.set`: `None` for the name raises the "Params must have a
name" `RuntimeError`, otherwise `__recursive_set` runs on the root content. -/
def pySet (content : Node) (param : Option String) (value : Node) :
    Except (PyErr × Node) Node :=
  match param with
  | none => .error (.runtimeError, content)
  | some p => rset (splitDot p) value content

/-- The loop of `Dictionary.initialise_recursive`, with the accumulated
`parent_path` (which carries a trailing separator). -/
def initRecLoop (content : Node) (pieces : List String) (parentPath : String) :
    Except (PyErr × Node) Node :=
  match pieces with
  | [] => .ok content
  | piece :: rest =>
    let path := parentPath ++ piece
    match pyKeyExists content path with
    | .error e => .error (e, content)
    | .ok true => initRecLoop content rest (path ++ ".")
    | .ok false =>
      match pyGetParent content path with
      | .error e => .error (e, content)
      | .ok parent =>
        let compat : Except PyErr Bool :=
          match parent with
          | .map _ =>
            match pyIsInt piece with
            | .error e => .error e
            | .ok b => .ok (!b)
          | .seq _ => pyIsInt piece
          | _ => .ok false
        match compat with
        | .error e => .error (e, content)
        | .ok true =>
          match pySet content (some path) (.map []) with
          | .error (e, c) => .error (e, c)
          | .ok c => initRecLoop c rest (path ++ ".")
        | .ok false => .error (.runtimeError, content)

/-- `Dictionary.initialise_recursive`. -/
def initialiseRecursive (content : Node) (param : String) :
    Except (PyErr × Node) Node :=
  initRecLoop content (splitDot param) ""

/-- `del parent[key_to_delete]` with the preceding `int` conversion for a
list parent and a numeric key. -/
def delAt (parent : Node) (key : String) : Except PyErr Node :=
  match parent with
  | .seq l =>
    match pyIsInt key with
    | .error e => .error e
    | .ok true =>
      match pyIdx l.length (pyToInt key) with
      | some j => .ok (.seq (l.eraseIdx j))
      | none => .error .indexError
    | .ok false => .error .typeError
  | .map m =>
    if mapMem m key then .ok (.map (mapDel m key)) else .error .keyError
  | _ => .error .typeError

/-- In-place mutation of the object returned by the single-segment branch of
`get`: the tree is rebuilt with `f` applied to `content[k]`. Branches on
which `get` would have returned the default leave the tree unchanged (the
caller, `delete`, never mutates in those cases because `key_exists` already
returned false). -/
def singleModify (content : Node) (k : String) (f : Node → Except PyErr Node) :
    Except PyErr Node :=
  if pyTruthy content then
    match pyContains content k with
    | .error e => .error e
    | .ok true =>
      match content with
      | .map m =>
        match mapGet m k with
        | some v =>
          match f v with
          | .error e => .error e
          | .ok v2 => .ok (.map (mapSet m k v2))
        | none => .error .keyError
      | _ => .error .typeError
    | .ok false => .ok content
  else .ok content

/-- In-place mutation of the node reached by the multi-segment walk of `get`:
the walk of `goGet`, rebuilding the spine, with `f` applied to the final
node. Steps on which `goGet` returns the default leave the tree unchanged. -/
def goModifyStep (item : String) (node : Node)
    (recurse : Node → Except PyErr Node) : Except PyErr Node :=
  match pyIsInt item with
  | .error e => .error e
  | .ok true =>
    match node with
    | .seq l =>
      if pyToInt item < (l.length : Int) then
        match pyIdx l.length (pyToInt item) with
        | some j =>
          let e := l.getD j .null
          if e.isNull then .ok node
          else
            match recurse e with
            | .error er => .error er
            | .ok e2 => .ok (.seq (l.set j e2))
        | none => .error .indexError
      else .ok node
    | _ => .ok node
  | .ok false =>
    match node with
    | .map m =>
      match mapGet m item with
      | some v =>
        if v.isNull then .ok node
        else
          match recurse v with
          | .error er => .error er
          | .ok v2 => .ok (.map (mapSet m item v2))
      | none => .ok node
    | .seq l => if l.any (isStrNode item) then .error .typeError else .ok node
    | .str s => if subOccurs s.data item.data then .error .typeError else .ok node
    | _ => .error .typeError

def goModify (node : Node) (items : List String) (f : Node → Except PyErr Node) :
    Except PyErr Node :=
  match items with
  | [] => f node
  | item :: rest => goModifyStep item node (fun sub => goModify sub rest f)

/-- Mutation of the node returned by `get(joinDot pieces, None)`, following
the same branching as `pyGet` does on the rejoined pieces (the pieces of a
split are separator-free, so `find(sep) > 0` on the joined string is the
shape test on the list). -/
def modifyJoined (content : Node) (pieces : List String)
    (f : Node → Except PyErr Node) : Except PyErr Node :=
  match pieces with
  | [] => singleModify content "" f
  | p0 :: tail =>
    if tail.isEmpty then singleModify content p0 f
    else if p0 = "" then singleModify content (joinDot (p0 :: tail)) f
    else goModify content (p0 :: tail) f

/-- `Dictionary.delete`: no mutation and `False` when `key_exists` fails,
otherwise the final segment is removed from the parent object in place. -/
def pyDelete (content : Node) (param : String) : Except PyErr (Bool × Node) :=
  match pyKeyExists content param with
  | .error e => .error e
  | .ok false => .ok (false, content)
  | .ok true =>
    let key := pyGetFocusedKey param
    if findsSep param then
      match modifyJoined content (splitDot param).dropLast (fun p => delAt p key) with
      | .error e => .error e
      | .ok c => .ok (true, c)
    else
      match delAt content key with
      | .error e => .error e
      | .ok c => .ok (true, c)

/-- An element of the result of `get_keys_in`: a dict key or a list
position. -/
inductive KeyOut where
  | key (s : String)
  | pos (n : Nat)
deriving DecidableEq, Repr

/-- `Dictionary.get_keys_in`: keys of a dict, `0..len-1` for a list, `None`
(here `Option.none`) for anything else. -/
def pyGetKeysIn (content : Node) (param : Option String) :
    Except PyErr (Option (List KeyOut)) :=
  match (match param with
         | some p => pyGet content p .null
         | none => .ok content) with
  | .error e => .error e
  | .ok obj =>
    match obj with
    | .map m => .ok (some (m.map (fun e => KeyOut.key e.1)))
    | .seq l => .ok (some ((List.range l.length).map KeyOut.pos))
    | _ => .ok none

/-! Facts about splitting and joining on the separator. -/

/-- Join of character pieces with the separator, mirroring `joinDot`. -/
def charJoin : List (List Char) → List Char
  | [] => []
  | [l] => l
  | l :: rest => l ++ '.' :: charJoin rest

theorem splitChars_ne_nil : ∀ l, splitChars l ≠ []
  | [] => by simp [splitChars]
  | c :: rest => by
    simp only [splitChars]
    split
    · simp
    · split <;> simp

theorem charJoin_splitChars : ∀ l, charJoin (splitChars l) = l
  | [] => rfl
  | c :: rest => by
    have ih := charJoin_splitChars rest
    simp only [splitChars]
    obtain ⟨a, b, hab⟩ := List.exists_cons_of_ne_nil (splitChars_ne_nil rest)
    rw [hab] at ih ⊢
    split
    · rename_i hc
      subst hc
      cases b with
      | nil => simpa [charJoin] using ih
      | cons b0 bs => simpa [charJoin] using ih
    · cases b with
      | nil => simpa [charJoin] using ih
      | cons b0 bs =>
        simp only [charJoin] at ih ⊢
        simp [ih]

theorem splitChars_nodot : ∀ {l : List Char}, '.' ∉ l → splitChars l = [l]
  | [], _ => rfl
  | c :: rest, h => by
    have hc : ¬c = '.' := fun hh => h (hh ▸ List.mem_cons_self c rest)
    have ih : splitChars rest = [rest] := splitChars_nodot (fun hh => h (List.mem_cons_of_mem c hh))
    simp [splitChars, hc, ih]

theorem splitChars_append_dot : ∀ {a b : List Char}, '.' ∉ a →
    splitChars (a ++ '.' :: b) = a :: splitChars b
  | [], b, _ => by simp [splitChars]
  | x :: xs, b, h => by
    have hx : ¬x = '.' := fun hh => h (hh ▸ List.mem_cons_self x xs)
    have ih : splitChars (xs ++ '.' :: b) = xs :: splitChars b :=
      splitChars_append_dot (fun hh => h (List.mem_cons_of_mem x hh))
    simp [splitChars, hx, ih]

theorem splitChars_charJoin : ∀ ls, ls ≠ [] → (∀ a ∈ ls, '.' ∉ a) →
    splitChars (charJoin ls) = ls
  | [], h, _ => absurd rfl h
  | [a], _, hdf => by
    simp only [charJoin]
    exact splitChars_nodot (hdf a (List.mem_singleton.mpr rfl))
  | a :: a2 :: rest, _, hdf => by
    have ih : splitChars (charJoin (a2 :: rest)) = a2 :: rest :=
      splitChars_charJoin (a2 :: rest) (by simp)
        (fun x hx => hdf x (List.mem_cons_of_mem a hx))
    simp only [charJoin]
    rw [splitChars_append_dot (hdf a (List.mem_cons_self a _)), ih]

theorem splitChars_dotfree : ∀ l, ∀ p ∈ splitChars l, '.' ∉ p
  | [], p, hp => by
    simp [splitChars] at hp
    simp [hp]
  | c :: rest, p, hp => by
    simp only [splitChars] at hp
    by_cases hc : c = '.'
    · simp [hc] at hp
      rcases hp with hp | hp
      · simp [hp]
      · exact splitChars_dotfree rest p hp
    · obtain ⟨a, b, hab⟩ := List.exists_cons_of_ne_nil (splitChars_ne_nil rest)
      rw [hab] at hp
      simp [hc] at hp
      rcases hp with hp | hp
      · subst hp
        intro hmem
        rcases List.mem_cons.mp hmem with h1 | h1
        · exact hc h1.symm
        · exact splitChars_dotfree rest a (hab ▸ List.mem_cons_self a b) h1
      · exact splitChars_dotfree rest p (hab ▸ List.mem_cons_of_mem a hp)

theorem splitDot_ne_nil (s : String) : splitDot s ≠ [] := by
  simpa [splitDot] using splitChars_ne_nil s.data

theorem splitDot_dotfree (s : String) : ∀ p ∈ splitDot s, '.' ∉ p.data := by
  intro p hp
  simp only [splitDot, List.mem_map] at hp
  obtain ⟨l, hl, rfl⟩ := hp
  exact splitChars_dotfree s.data l hl

theorem joinDot_data : ∀ pieces, (joinDot pieces).data = charJoin (pieces.map String.data)
  | [] => rfl
  | [s] => rfl
  | s :: p2 :: rest => by
    have ih := joinDot_data (p2 :: rest)
    simp only [joinDot, List.map, charJoin]
    rw [String.data_append, String.data_append, ih]
    simp [List.append_assoc]

theorem joinDot_splitDot (s : String) : joinDot (splitDot s) = s := by
  apply String.ext
  rw [joinDot_data]
  have hmm : (splitDot s).map String.data = splitChars s.data := by
    simp [splitDot, List.map_map]
    exact List.map_id _
  rw [hmm, charJoin_splitChars]

theorem splitDot_joinDot (pieces : List String) (h1 : pieces ≠ [])
    (h2 : ∀ p ∈ pieces, '.' ∉ p.data) : splitDot (joinDot pieces) = pieces := by
  unfold splitDot
  rw [joinDot_data, splitChars_charJoin (pieces.map String.data)
    (by simpa using h1) (by intro a ha; simp at ha; obtain ⟨p, hp, rfl⟩ := ha; exact h2 p hp)]
  rw [List.map_map]
  exact List.map_id _

theorem splitDot_nodot {s : String} (h : '.' ∉ s.data) : splitDot s = [s] := by
  simp [splitDot, splitChars_nodot h]

/-! Facts about the association-list model of Python dicts. -/

theorem mapGet_mapSet_self : ∀ (m : List (String × Node)) k v,
    mapGet (mapSet m k v) k = some v
  | [], k, v => by simp [mapSet, mapGet]
  | (k0, v0) :: rest, k, v => by
    by_cases h : k0 = k
    · simp [mapSet, mapGet, h]
    · simp [mapSet, mapGet, h, mapGet_mapSet_self rest k v]

theorem mapSet_of_mapGet : ∀ {m : List (String × Node)} {k v},
    mapGet m k = some v → mapSet m k v = m
  | [], k, v, h => by simp [mapGet] at h
  | (k0, v0) :: rest, k, v, h => by
    by_cases hk : k0 = k
    · simp [mapGet, hk] at h
      simp [mapSet, hk, h]
    · simp [mapGet, hk] at h
      simp [mapSet, hk, mapSet_of_mapGet h]

theorem mapMem_mapSet_self (m : List (String × Node)) (k : String) (v : Node) :
    mapMem (mapSet m k v) k = true := by
  induction m with
  | nil => simp [mapSet, mapMem]
  | cons e rest ih =>
    obtain ⟨k0, v0⟩ := e
    by_cases h : k0 = k
    · simp [mapSet, mapMem, h]
    · simp [mapSet, mapMem, h, ih]

theorem mapMem_iff_mapGet {m : List (String × Node)} {k : String} :
    mapMem m k = true ↔ ∃ v, mapGet m k = some v := by
  induction m with
  | nil => simp [mapMem, mapGet]
  | cons e rest ih =>
    obtain ⟨k0, v0⟩ := e
    by_cases h : k0 = k
    · simp [mapMem, mapGet, h]
    · simp [mapMem, mapGet, h, ih]

theorem mapSet_ne_nil (m : List (String × Node)) (k : String) (v : Node) :
    mapSet m k v ≠ [] := by
  cases m with
  | nil => simp [mapSet]
  | cons e rest =>
    obtain ⟨k0, v0⟩ := e
    by_cases h : k0 = k <;> simp [mapSet, h]

theorem mapMem_mapDel_self : ∀ {m : List (String × Node)} {k},
    keysNodup m = true → mapMem (mapDel m k) k = false
  | [], k, _ => by simp [mapDel, mapMem]
  | (k0, v0) :: rest, k, h => by
    simp only [keysNodup, Bool.and_eq_true, Bool.not_eq_eq_eq_not, Bool.not_true] at h
    by_cases hk : k0 = k
    · subst hk
      simp [mapDel, h.1]
    · simp [mapDel, mapMem, hk, mapMem_mapDel_self h.2]

/-! Two small facts about `List.set`/`List.getD`. -/

theorem list_set_getD_self : ∀ (l : List Node) (j : Nat), j < l.length →
    l.set j (l.getD j .null) = l
  | [], j, h => by simp at h
  | x :: rest, 0, _ => by simp [List.getD_cons_zero]
  | x :: rest, j + 1, h => by
    simp only [List.getD_cons_succ, List.set_cons_succ]
    rw [list_set_getD_self rest j (by simpa using h)]

theorem list_getD_set_self : ∀ (l : List Node) (j : Nat) (e : Node), j < l.length →
    (l.set j e).getD j .null = e
  | [], j, e, h => by simp at h
  | x :: rest, 0, e, _ => by simp [List.getD_cons_zero]
  | x :: rest, j + 1, e, h => by
    simp only [List.getD_cons_succ, List.set_cons_succ]
    exact list_getD_set_self rest j e (by simpa using h)

/-! The shape of `get` on a path rejoined from separator-free pieces. -/

theorem pyGet_nodot (c : Node) (d : Node) {p0 : String} (hdf : '.' ∉ p0.data) :
    pyGet c p0 d = singleGet c p0 d := by
  have : findsSep p0 = false := by simp [findsSep, splitDot_nodot hdf]
  simp [pyGet, this]

theorem pyGet_joinDot_single (c d : Node) {p0 : String} (hdf : '.' ∉ p0.data) :
    pyGet c (joinDot [p0]) d = singleGet c p0 d := by
  have h1 : joinDot [p0] = p0 := rfl
  rw [h1]
  exact pyGet_nodot c d hdf

theorem findsSep_joinDot_multi {p0 : String} {tail : List String} (ht : tail ≠ [])
    (h0 : p0 ≠ "") (hdf : ∀ p ∈ p0 :: tail, '.' ∉ p.data) :
    findsSep (joinDot (p0 :: tail)) = true := by
  simp only [findsSep, splitDot_joinDot (p0 :: tail) (by simp) hdf]
  simp [List.isEmpty_eq_false.mpr ht, h0]

theorem pyGet_joinDot_multi (c d : Node) {p0 : String} {tail : List String}
    (ht : tail ≠ []) (h0 : p0 ≠ "") (hdf : ∀ p ∈ p0 :: tail, '.' ∉ p.data) :
    pyGet c (joinDot (p0 :: tail)) d = goGet c (p0 :: tail) d := by
  simp only [pyGet, findsSep_joinDot_multi ht h0 hdf,
    splitDot_joinDot (p0 :: tail) (by simp) hdf, if_true]

theorem findsSep_joinDot_headEmpty {tail : List String}
    (hdf : ∀ p ∈ ("" : String) :: tail, '.' ∉ p.data) :
    findsSep (joinDot ("" :: tail)) = false := by
  simp [findsSep, splitDot_joinDot ("" :: tail) (by simp) hdf]

theorem pyGet_joinDot_headEmpty (c d : Node) {tail : List String}
    (hdf : ∀ p ∈ ("" : String) :: tail, '.' ∉ p.data) :
    pyGet c (joinDot ("" :: tail)) d = singleGet c (joinDot ("" :: tail)) d := by
  simp [pyGet, findsSep_joinDot_headEmpty hdf]

/-! Error atomicity of `__recursive_set`. -/

theorem pyIdx_lt {len : Nat} {i : Int} {j : Nat} (h : pyIdx len i = some j) : j < len := by
  unfold pyIdx at h
  split at h
  · split at h
    · rename_i h0 hlt
      cases h
      omega
    · cases h
  · split at h
    · rename_i h0 hge
      cases h
      omega
    · cases h

theorem rsetSingle_error_eq : ∀ {k v d e d2},
    rsetSingle k v d = .error (e, d2) → d2 = d := by
  intro k v d e d2 h
  unfold rsetSingle at h
  split at h
  · simp at h
    exact h.2.symm
  · split at h
    · split at h
      · split at h
        · cases h
        · simp at h
          exact h.2.symm
      · cases h
    · simp at h
      exact h.2.symm
  · split at h
    · cases h
    · split at h
      · cases h
      · simp at h
        exact h.2.symm

theorem rsetStep_error_eq {p0 : String} {d : Node}
    {recurse : Node → Except (PyErr × Node) Node}
    (hrec : ∀ sub e2 s2, recurse sub = .error (e2, s2) → s2 = sub)
    {e : PyErr} {d2 : Node} (h : rsetStep p0 d recurse = .error (e, d2)) : d2 = d := by
  unfold rsetStep at h
  split at h
  · simp at h
    exact h.2.symm
  · split at h
    · rename_i l
      split at h
      · split at h
        · rename_i j hj
          dsimp only at h
          split at h
          · simp at h
            exact h.2.symm
          · split at h
            · cases h
            · rename_i er sub heq
              simp at h
              rw [← h.2, hrec _ _ _ heq, list_set_getD_self l j (pyIdx_lt hj)]
        · simp at h
          exact h.2.symm
      · simp at h
        exact h.2.symm
    · simp at h
      exact h.2.symm
  · split at h
    · rename_i m
      split at h
      · simp at h
        exact h.2.symm
      · rename_i v0 hv0
        split at h
        · cases h
        · rename_i er sub heq
          simp at h
          rw [← h.2, hrec _ _ _ heq, mapSet_of_mapGet hv0]
    · simp at h
      exact h.2.symm

theorem rset_error_eq : ∀ (pieces : List String) {v d e d2},
    rset pieces v d = .error (e, d2) → d2 = d := by
  intro pieces
  induction pieces with
  | nil =>
    intro v d e d2 h
    exact rsetSingle_error_eq h
  | cons p0 tail ih =>
    intro v d e d2 h
    unfold rset at h
    split at h
    · exact rsetSingle_error_eq h
    · split at h
      · exact rsetSingle_error_eq h
      · exact rsetStep_error_eq (fun sub e2 s2 hh => ih hh) h

/-! Claim C1. -/

/-- C1: the claim that the navigational reads (`get`, `key_exists`,
`get_parent`, `get_keys_in`) never raise is violated by the code: already
`get("a.", default)` on the tree `{"a": {"b": 1}}` raises `IndexError`,
because the walk reaches the trailing empty segment and `_is_int("")`
evaluates `element[0]` on the empty string instead of returning the
default. -/
theorem c1_get_raises_index_error :
    pyGet (.map [("a", .map [("b", .int 1)])]) "a." (.int 0) = .error .indexError := rfl

/-! Claim C2. -/

/-- C2: the set/get round-trip fails on the code: on `{"a": None}` the call
`set("a.b", "v")` returns without raising but leaves the tree unchanged (the
final `dictionary = {param_name: value}` branch of `__recursive_set` rebinds
a local variable only), so `get("a.b")` afterwards returns the default
instead of "v". -/
theorem c2_set_roundtrip_broken :
    pySet (.map [("a", .null)]) (some "a.b") (.str "v") = .ok (.map [("a", .null)]) ∧
    pyGet (.map [("a", .null)]) "a.b" (.str "DEFAULT") = .ok (.str "DEFAULT") :=
  ⟨rfl, rfl⟩

/-! Claim C3. -/

/-- C3: the claimed wholesale replacement of a scalar/absent terminal write
target with the single-entry map `{segment: value}` (promised by the
docstring of `set`) never happens in the code: with the scalar `5` as the
target, `set("b", "x")` raises `TypeError` on the subscript assignment, and
with the absence marker `None` as the target the call returns silently with
the tree unchanged. -/
theorem c3_no_wholesale_replacement :
    pySet (.int 5) (some "b") (.str "x") = .error (.typeError, .int 5) ∧
    pySet .null (some "b") (.str "x") = .ok .null :=
  ⟨rfl, rfl⟩

/-! Claim C9. -/

/-- C9: an absent (`None`) path raises the designated "Params must have a
name" `RuntimeError`, but an empty path is not caught by that guard: for
every tree and value, `set("")` runs into `_is_int("")` and raises an
undesignated `IndexError` instead of the designated error. -/
theorem c9_empty_path_raises_index_error (t v : Node) :
    pySet t none v = .error (.runtimeError, t) ∧
    pySet t (some "") v = .error (.indexError, t) :=
  ⟨rfl, rfl⟩

/-! Claim C4. -/

/-- C4 counterexample: `initialise_recursive("a.0")` on the empty tree raises
`RuntimeError` (the second segment is numeric but the parent is a dict), yet
it leaves behind the intermediate map created for the first segment: the tree
after the failed call is `{"a": {}}`, not the original `{}`. -/
theorem c4_counterexample_init_recursive_partial_mutation :
    initialiseRecursive (.map []) "a.0" = .error (.runtimeError, .map [("a", .map [])]) ∧
    Node.map [("a", Node.map [])] ≠ Node.map [] :=
  ⟨rfl, by simp⟩

/-- C4 (amended): every `set` call that raises leaves the tree exactly as it
was before the call: whenever `set` returns an error, the tree state carried
out of the failed call equals the tree passed in. (`initialise_recursive` is
not atomic: it can retain containers created for earlier segments, as the
counterexample shows.) -/
theorem c4_set_error_leaves_tree_unchanged (t : Node) (p : Option String) (v : Node)
    (e : PyErr) (t2 : Node) (h : pySet t p v = .error (e, t2)) : t2 = t := by
  cases p with
  | none =>
    unfold pySet at h
    simp at h
    exact h.2.symm
  | some s => exact rset_error_eq (splitDot s) h

/-- Witness for C4: a concrete failing `set` (unknown intermediate key) on
the empty tree, whose error state the theorem equates with the input tree. -/
theorem c4_set_error_leaves_tree_unchanged_witness :
    pySet (.map []) (some "x.y") (.int 1) = .error (.runtimeError, .map []) ∧
    (Node.map [] : Node) = Node.map [] :=
  ⟨rfl, c4_set_error_leaves_tree_unchanged (.map []) (some "x.y") (.int 1)
    .runtimeError (.map []) rfl⟩

/-! The closed form of the gap-filling loop. -/

theorem pyIdx_nat_isSome (len idx : Nat) :
    (pyIdx len (idx : Int)).isSome = decide (idx < len) := by
  unfold pyIdx
  rw [if_pos (Int.ofNat_nonneg idx)]
  by_cases h : idx < len
  · rw [if_pos (by exact_mod_cast h)]
    simp [h]
  · rw [if_neg (by exact_mod_cast h)]
    simp [h]

theorem appendFillStep_lt {target : Nat} {v : Node} {acc : List Node} {idx : Nat}
    (h : idx < acc.length) : appendFillStep target v acc idx = acc := by
  unfold appendFillStep
  rw [pyIdx_nat_isSome]
  simp [h]

theorem appendFillStep_ge {target : Nat} {v : Node} {acc : List Node} {idx : Nat}
    (h : acc.length ≤ idx) :
    appendFillStep target v acc idx = acc ++ [if idx = target then v else Node.null] := by
  unfold appendFillStep
  rw [pyIdx_nat_isSome]
  simp [Nat.not_lt.mpr h]

theorem appendFill_loop_low (l : List Node) (i : Nat) (v : Node) :
    ∀ n, n ≤ l.length → (List.range n).foldl (appendFillStep i v) l = l := by
  intro n
  induction n with
  | zero => intro _; rfl
  | succ n ih =>
    intro hn
    rw [List.range_succ, List.foldl_append]
    simp only [List.foldl_cons, List.foldl_nil]
    rw [ih (Nat.le_of_succ_le hn), appendFillStep_lt (Nat.lt_of_succ_le hn)]

theorem appendFill_loop_fill (l : List Node) (i : Nat) (v : Node) :
    ∀ k, l.length + k ≤ i →
    (List.range (l.length + k)).foldl (appendFillStep i v) l =
      l ++ List.replicate k Node.null := by
  intro k
  induction k with
  | zero =>
    intro _
    simpa using appendFill_loop_low l i v l.length (Nat.le_refl _)
  | succ k ih =>
    intro hk
    have hki : l.length + k ≤ i := by omega
    rw [show l.length + (k + 1) = (l.length + k) + 1 by omega, List.range_succ,
      List.foldl_append]
    simp only [List.foldl_cons, List.foldl_nil]
    rw [ih hki, appendFillStep_ge (by simp)]
    have hne : ¬(l.length + k = i) := by omega
    rw [if_neg hne, List.append_assoc]
    congr 1
    rw [← List.replicate_succ' k Node.null]

theorem appendFill_spec (l : List Node) (i : Nat) (v : Node) (h : l.length ≤ i) :
    appendFill l i v = l ++ List.replicate (i - l.length) Node.null ++ [v] := by
  unfold appendFill
  rw [show i + 1 = (l.length + (i - l.length)) + 1 by omega, List.range_succ,
    List.foldl_append]
  simp only [List.foldl_cons, List.foldl_nil]
  rw [appendFill_loop_fill l i v (i - l.length) (by omega),
    appendFillStep_ge (by simp)]
  rw [show l.length + (i - l.length) = i by omega, if_pos rfl, List.append_assoc]

/-! Claim C6. -/

/-- C6: on a tree with an empty sequence at key "a", `set("a.3", "x")` yields
the sequence `[None, None, None, "x"]`: `get_keys_in("a")` returns the
positions 0..3, `get` returns the default at positions 0, 1 and 2 (absence
markers) and "x" at position 3; and in general the terminal index write loop
(`appendFill`) appends exactly enough absence markers for the target index to
become valid and then places the value there. -/
theorem c6_sequence_auto_extension :
    (pySet (.map [("a", .seq [])]) (some "a.3") (.str "x") =
      .ok (.map [("a", .seq [.null, .null, .null, .str "x"])])) ∧
    (pyGetKeysIn (.map [("a", .seq [.null, .null, .null, .str "x"])]) (some "a") =
      .ok (some [.pos 0, .pos 1, .pos 2, .pos 3])) ∧
    (pyGet (.map [("a", .seq [.null, .null, .null, .str "x"])]) "a.0" (.str "D") =
      .ok (.str "D")) ∧
    (pyGet (.map [("a", .seq [.null, .null, .null, .str "x"])]) "a.1" (.str "D") =
      .ok (.str "D")) ∧
    (pyGet (.map [("a", .seq [.null, .null, .null, .str "x"])]) "a.2" (.str "D") =
      .ok (.str "D")) ∧
    (pyGet (.map [("a", .seq [.null, .null, .null, .str "x"])]) "a.3" (.str "D") =
      .ok (.str "x")) ∧
    ∀ (l : List Node) (i : Nat) (v : Node), l.length ≤ i →
      appendFill l i v = l ++ List.replicate (i - l.length) Node.null ++ [v] :=
  ⟨rfl, rfl, rfl, rfl, rfl, rfl, appendFill_spec⟩

/-- Witness for C6's general part: extending the empty sequence to index 2. -/
theorem c6_sequence_auto_extension_witness :
    appendFill [] 2 (Node.str "x") =
      [] ++ List.replicate 2 Node.null ++ [Node.str "x"] :=
  c6_sequence_auto_extension.2.2.2.2.2.2 [] 2 (Node.str "x") (by decide)

/-! Claim C10. -/

theorem findsSep_head_dot {s : String} {rest : List Char} (h1 : s.data = '.' :: rest) :
    findsSep s = false := by
  unfold findsSep splitDot
  rw [h1]
  simp [splitChars]

theorem isIntLex_head_dot {s : String} {rest : List Char} (h1 : s.data = '.' :: rest) :
    isIntLex s = false := by
  unfold isIntLex
  rw [h1]
  simp [decChars]

theorem pyIsInt_head_dot {s : String} {rest : List Char} (h1 : s.data = '.' :: rest) :
    pyIsInt s = .ok false := by
  unfold pyIsInt
  rw [h1, isIntLex_head_dot h1]

/-- C10: for every path string in which the separator occurs only at
index 0, `find(separator) > 0` is false, so `get`, `set`, `key_exists` and
`get_parent` do not split the string: the whole string, leading separator
included, acts as one single root-level map key. -/
theorem c10_leading_separator_single_root_key (s : String) (rest : List Char)
    (h1 : s.data = '.' :: rest) (_h2 : '.' ∉ rest)
    (m : List (String × Node)) (d v : Node) :
    pyGet (.map m) s d = singleGet (.map m) s d ∧
    pySet (.map m) (some s) v = .ok (.map (mapSet m s v)) ∧
    pyKeyExists (.map m) s = .ok (mapMem m s) ∧
    pyGetParent (.map m) s = .ok (.map m) := by
  have hfs : findsSep s = false := findsSep_head_dot h1
  refine ⟨by simp [pyGet, hfs], ?_, ?_, ?_⟩
  · show rset (splitDot s) v (.map m) = _
    have hsd : splitDot s = "" :: (splitChars rest).map (fun l => ⟨l⟩) := by
      unfold splitDot
      rw [h1]
      simp [splitChars]
    have htail : ((splitChars rest).map (fun l => (⟨l⟩ : String))) ≠ [] := by
      simpa using splitChars_ne_nil rest
    rw [hsd]
    unfold rset
    rw [if_neg (by simpa [List.isEmpty_eq_false] using htail), if_pos rfl]
    have hjoin : joinDot ("" :: (splitChars rest).map (fun l => ⟨l⟩)) = s := by
      rw [← hsd]
      exact joinDot_splitDot s
    rw [hjoin]
    unfold rsetSingle
    rw [pyIsInt_head_dot h1]
    rfl
  · unfold pyKeyExists pyGetParent pyGetFocusedKey
    simp [hfs, Node.isNull]
  · unfold pyGetParent
    simp [hfs]

/-- Witness for C10 at the path ".ab" over the empty root map. -/
theorem c10_leading_separator_witness :
    pyGet (.map []) ".ab" (.int 0) = singleGet (.map []) ".ab" (.int 0) ∧
    pySet (.map []) (some ".ab") (.int 1) = .ok (.map (mapSet [] ".ab" (.int 1))) ∧
    pyKeyExists (.map []) ".ab" = .ok (mapMem [] ".ab") ∧
    pyGetParent (.map []) ".ab" = .ok (.map []) :=
  c10_leading_separator_single_root_key ".ab" ['a', 'b'] rfl (by decide) [] (.int 0) (.int 1)

/-! Claim C8. -/

/-- Modelled from the spec (§4.4): the value of `key_exists` as the claim
states it, as a function of the resolved parent node, the final segment and
the final segment's index-segment classification: false for an absent
parent, bounds membership for a sequence parent addressed by an index
segment, key membership for a map parent, false for any other shape. -/
def keyExistsSpec (parent : Node) (finalSeg : String) (isIdxSeg : Bool) : Bool :=
  match parent with
  | .null => false
  | .seq l => isIdxSeg && (pyIdx l.length (pyToInt finalSeg)).isSome
  | .map m => mapMem m finalSeg
  | _ => false

/-- C8 counterexample: with the tree `{"a": "xyz"}` and the path "a.x.y",
the parent path "a.x" does not resolve to a node, so the claim requires
`key_exists` to return false; the code instead raises `TypeError` while
resolving the parent (membership of "x" in the string "xyz" succeeds and the
subsequent subscript fails). -/
theorem c8_counterexample_key_exists_raises :
    pyKeyExists (.map [("a", .str "xyz")]) "a.x.y" = .error .typeError := rfl

/-- C8 (amended): whenever parent resolution and the classification of the
final segment return normally, `key_exists` returns exactly the value the
claim describes: false for an unresolved (absent) parent, bounds membership
(in Python's index sense) for a sequence parent with an index final segment,
key membership for a map parent, and false for any other parent shape. -/
theorem c8_key_exists_cases (t : Node) (p : String) (par : Node) (c : Bool)
    (hpar : pyGetParent t p = .ok par)
    (hcls : pyIsInt (pyGetFocusedKey p) = .ok c) :
    pyKeyExists t p = .ok (keyExistsSpec par (pyGetFocusedKey p) c) := by
  unfold pyKeyExists
  rw [hpar]
  cases par with
  | null => rfl
  | bool b => rfl
  | int n => rfl
  | str s => rfl
  | seq l =>
    show (match pyIsInt (pyGetFocusedKey p) with
          | .error e => Except.error e
          | .ok true => Except.ok (!(isOutOfRange (pyToInt (pyGetFocusedKey p)) l))
          | .ok false => Except.ok false) = _
    rw [hcls]
    cases c with
    | true =>
      show Except.ok (!(isOutOfRange (pyToInt (pyGetFocusedKey p)) l)) = _
      unfold keyExistsSpec isOutOfRange
      cases hx : pyIdx l.length (pyToInt (pyGetFocusedKey p)) <;> simp [hx]
    | false => rfl
  | map m => rfl

/-- Witness for C8: a sequence parent with an in-range index segment. -/
theorem c8_key_exists_cases_witness :
    pyKeyExists (.map [("a", .seq [.int 5])]) "a.0" =
      .ok (keyExistsSpec (.seq [.int 5]) "0" true) :=
  c8_key_exists_cases (.map [("a", .seq [.int 5])]) "a.0" (.seq [.int 5]) true rfl rfl

/-! Correspondence between the navigation of `get` and the in-place
mutation of the object it returns, used by `delete`. -/

theorem singleModify_of_singleGet {content : Node} {k : String} {v w : Node}
    {f : Node → Except PyErr Node}
    (hget : singleGet content k .null = .ok v) (hv : v.isNull = false)
    (hf : f v = .ok w) :
    ∃ c2, singleModify content k f = .ok c2 ∧ c2.isNull = false ∧
      singleGet c2 k .null = .ok w := by
  unfold singleGet at hget
  split at hget
  · rename_i htr
    split at hget
    · rename_i e heq
      cases hget
    · rename_i b heq
      split at hget
      · rename_i m
        split at hget
        · rename_i v0 hv0
          cases hget
          refine ⟨.map (mapSet m k w), ?_, rfl, ?_⟩
          · unfold singleModify
            rw [if_pos htr, heq]
            dsimp only
            rw [hv0]
            dsimp only
            rw [hf]
          · unfold singleGet
            have htr2 : pyTruthy (.map (mapSet m k w)) = true := by
              have := mapSet_ne_nil m k w
              simp [pyTruthy, List.isEmpty_eq_false]
              exact this
            rw [if_pos htr2]
            show (match pyContains (Node.map (mapSet m k w)) k with
                  | .error e => Except.error e
                  | .ok true =>
                    match Node.map (mapSet m k w) with
                    | .map m2 =>
                      match mapGet m2 k with
                      | some v2 => Except.ok v2
                      | none => Except.error .keyError
                    | _ => Except.error .typeError
                  | .ok false => Except.ok Node.null) = Except.ok w
            have hc : pyContains (Node.map (mapSet m k w)) k = .ok true := by
              show Except.ok (mapMem (mapSet m k w) k) = Except.ok true
              rw [mapMem_mapSet_self]
            rw [hc]
            show (match mapGet (mapSet m k w) k with
                  | some v2 => (Except.ok v2 : Except PyErr Node)
                  | none => Except.error PyErr.keyError) = Except.ok w
            rw [mapGet_mapSet_self]
        · cases hget
      · cases hget
    · rename_i b heq
      cases hget
      simp [Node.isNull] at hv
  · cases hget
    simp [Node.isNull] at hv

theorem goModify_of_goGet : ∀ (items : List String) {node v w : Node}
    {f : Node → Except PyErr Node},
    goGet node items .null = .ok v → v.isNull = false →
    f v = .ok w → w.isNull = false →
    ∃ n2, goModify node items f = .ok n2 ∧ n2.isNull = false ∧
      goGet n2 items .null = .ok w := by
  intro items
  induction items with
  | nil =>
    intro node v w f hget hv hf hw
    cases hget
    exact ⟨w, hf, hw, rfl⟩
  | cons item rest ih =>
    intro node v w f hget hv hf hw
    unfold goGet goGetStep at hget
    split at hget
    · cases hget
    · rename_i heqInt
      split at hget
      · rename_i l
        split at hget
        · rename_i hlt
          split at hget
          · rename_i j hj
            dsimp only at hget
            split at hget
            · cases hget
              simp [Node.isNull] at hv
            · rename_i hnn
              obtain ⟨e2, hm, he2, hge⟩ := ih hget hv hf hw
              refine ⟨.seq (l.set j e2), ?_, rfl, ?_⟩
              · unfold goModify goModifyStep
                rw [heqInt]
                show (if pyToInt item < ((l : List Node).length : Int) then _ else _) = _
                rw [if_pos hlt, hj]
                dsimp only
                rw [if_neg hnn, hm]
              · unfold goGet goGetStep
                rw [heqInt]
                show (if pyToInt item < ((l.set j e2).length : Int) then _ else _) = _
                rw [List.length_set, if_pos hlt, hj]
                dsimp only
                rw [list_getD_set_self l j e2 (pyIdx_lt hj)]
                rw [if_neg (by simp [he2])]
                exact hge
          · cases hget
        · cases hget
          simp [Node.isNull] at hv
      · cases hget
        simp [Node.isNull] at hv
    · rename_i heqInt
      split at hget
      · rename_i m
        split at hget
        · rename_i v0 hv0
          split at hget
          · cases hget
            simp [Node.isNull] at hv
          · rename_i hnn
            obtain ⟨v2, hm, hv2, hge⟩ := ih hget hv hf hw
            refine ⟨.map (mapSet m item v2), ?_, rfl, ?_⟩
            · unfold goModify goModifyStep
              rw [heqInt]
              show (match mapGet m item with
                    | some vv =>
                      if vv.isNull = true then Except.ok (Node.map m)
                      else
                        match goModify vv rest f with
                        | .error er => Except.error er
                        | .ok vx => Except.ok (Node.map (mapSet m item vx))
                    | none => Except.ok (Node.map m)) = _
              rw [hv0]
              dsimp only
              rw [if_neg hnn, hm]
            · unfold goGet goGetStep
              rw [heqInt]
              show (match mapGet (mapSet m item v2) item with
                    | some vv =>
                      if vv.isNull = true then Except.ok Node.null
                      else goGet vv rest Node.null
                    | none => Except.ok Node.null) = _
              rw [mapGet_mapSet_self]
              dsimp only
              rw [if_neg (by simp [hv2])]
              exact hge
        · cases hget
          simp [Node.isNull] at hv
      · split at hget
        · cases hget
        · cases hget
          simp [Node.isNull] at hv
      · split at hget
        · cases hget
        · cases hget
          simp [Node.isNull] at hv
      · cases hget

theorem modifyJoined_of_pyGet : ∀ (pieces : List String),
    (∀ p ∈ pieces, '.' ∉ p.data) → ∀ {c v w : Node} {f : Node → Except PyErr Node},
    pyGet c (joinDot pieces) .null = .ok v → v.isNull = false →
    f v = .ok w → w.isNull = false →
    ∃ c2, modifyJoined c pieces f = .ok c2 ∧
      pyGet c2 (joinDot pieces) .null = .ok w := by
  intro pieces hdf c v w f hget hv hf hw
  match pieces with
  | [] =>
    have h1 : pyGet c (joinDot ([] : List String)) .null = singleGet c "" .null := rfl
    rw [h1] at hget
    obtain ⟨c2, hm, _, hg2⟩ := singleModify_of_singleGet hget hv hf
    exact ⟨c2, hm, hg2⟩
  | [p0] =>
    have hdot : '.' ∉ p0.data := hdf p0 (by simp)
    rw [pyGet_joinDot_single c .null hdot] at hget
    obtain ⟨c2, hm, _, hg2⟩ := singleModify_of_singleGet hget hv hf
    refine ⟨c2, hm, ?_⟩
    rw [pyGet_joinDot_single c2 .null hdot]
    exact hg2
  | p0 :: t0 :: ts =>
    by_cases h0 : p0 = ""
    · subst h0
      rw [pyGet_joinDot_headEmpty c .null hdf] at hget
      obtain ⟨c2, hm, _, hg2⟩ := singleModify_of_singleGet hget hv hf
      refine ⟨c2, ?_, ?_⟩
      · unfold modifyJoined
        dsimp only
        rw [if_neg (by simp)]
        exact hm
      · rw [pyGet_joinDot_headEmpty c2 .null hdf]
        exact hg2
    · rw [pyGet_joinDot_multi c .null (by simp) h0 hdf] at hget
      obtain ⟨c2, hm, _, hg2⟩ := goModify_of_goGet (p0 :: t0 :: ts) hget hv hf hw
      refine ⟨c2, ?_, ?_⟩
      · unfold modifyJoined
        dsimp only
        rw [if_neg (by simp), if_neg h0]
        exact hm
      · rw [pyGet_joinDot_multi c2 .null (by simp) h0 hdf]
        exact hg2

/-! Claim C5. -/

/-- C5 counterexample: deleting "a.0" twice from `{"a": [1, 2]}` returns true
both times — after the first removal the remaining element shifts down, so
index 0 still exists — and the trees after the first and the second call
differ, refuting both parts of the claim. -/
theorem c5_counterexample_delete_not_idempotent :
    pyDelete (.map [("a", .seq [.int 1, .int 2])]) "a.0" =
      .ok (true, .map [("a", .seq [.int 2])]) ∧
    pyDelete (.map [("a", .seq [.int 2])]) "a.0" =
      .ok (true, .map [("a", .seq [])]) ∧
    Node.map [("a", Node.seq [])] ≠ Node.map [("a", Node.seq [Node.int 2])] :=
  ⟨rfl, rfl, by simp⟩

/-- C5 (amended): when the parent of the path resolves to a Map (with the
pairwise-distinct keys every Python dict has), a `delete` that returned true
is followed by a `delete` that returns false and leaves the tree of the
first call unchanged. (For a Sequence parent the second call can return true
again, because removal shifts the remaining elements down.) -/
theorem c5_delete_twice_map_parent (t : Node) (p : String)
    (pm : List (String × Node)) (t1 : Node)
    (hpar : pyGetParent t p = .ok (.map pm))
    (hnd : keysNodup pm = true)
    (hdel : pyDelete t p = .ok (true, t1)) :
    pyDelete t1 p = .ok (false, t1) := by
  unfold pyDelete at hdel
  split at hdel
  · cases hdel
  · simp at hdel
  · rename_i hke
    dsimp only at hdel
    have hmem : mapMem pm (pyGetFocusedKey p) = true := by
      unfold pyKeyExists at hke
      rw [hpar] at hke
      simpa [Node.isNull] using hke
    have hf : delAt (.map pm) (pyGetFocusedKey p) =
        .ok (.map (mapDel pm (pyGetFocusedKey p))) := by
      unfold delAt
      dsimp only
      rw [if_pos hmem]
    split at hdel
    · -- multi-segment path: the parent is located through the joined pieces
      rename_i htrue
      have hpar2 : pyGet t (joinDot (splitDot p).dropLast) .null = .ok (.map pm) := by
        have h0 := hpar
        unfold pyGetParent at h0
        rwa [if_pos htrue] at h0
      have hdf : ∀ q ∈ (splitDot p).dropLast, '.' ∉ q.data :=
        fun q hq => splitDot_dotfree p q (List.dropLast_subset _ hq)
      obtain ⟨c2, hm, hg2⟩ :=
        @modifyJoined_of_pyGet (splitDot p).dropLast hdf t (.map pm)
          (.map (mapDel pm (pyGetFocusedKey p)))
          (fun q => delAt q (pyGetFocusedKey p)) hpar2 rfl hf rfl
      rw [hm] at hdel
      have ht1 : t1 = c2 := by
        simpa using hdel.symm
      subst ht1
      have hke2 : pyKeyExists t1 p = .ok false := by
        unfold pyKeyExists pyGetParent
        rw [if_pos htrue, hg2]
        simp [Node.isNull, mapMem_mapDel_self hnd]
      unfold pyDelete
      rw [hke2]
    · -- separator-free path: the parent is the root itself
      rename_i hfalse
      have hroot : t = .map pm := by
        have h0 := hpar
        unfold pyGetParent at h0
        rw [if_neg hfalse] at h0
        simpa using h0
      subst hroot
      rw [hf] at hdel
      have ht1 : t1 = .map (mapDel pm (pyGetFocusedKey p)) := by
        simpa using hdel.symm
      subst ht1
      have hke2 : pyKeyExists (.map (mapDel pm (pyGetFocusedKey p))) p = .ok false := by
        unfold pyKeyExists pyGetParent
        rw [if_neg hfalse]
        simp [Node.isNull, mapMem_mapDel_self hnd]
      unfold pyDelete
      rw [hke2]

/-- Witness for C5: deleting the key "b" of the map parent at "a" twice
returns true then false and leaves the tree of the first call unchanged. -/
theorem c5_delete_twice_map_parent_witness :
    pyDelete (.map [("a", .map [("b", .int 1)])]) "a.b" =
      .ok (true, .map [("a", .map [])]) ∧
    pyDelete (.map [("a", .map [])]) "a.b" = .ok (false, .map [("a", .map [])]) :=
  ⟨rfl, c5_delete_twice_map_parent (.map [("a", .map [("b", .int 1)])]) "a.b"
    [("b", .int 1)] (.map [("a", .map [])]) rfl rfl rfl⟩

/-! Claim C7: chains of nested singleton maps, the shape
`initialise_recursive` builds over an initially empty tree. -/

/-- The tree `initialise_recursive` builds for a list of key segments over
the empty root: nested singleton maps ending in an empty map. -/
def chainMk : List String → Node
  | [] => .map []
  | k :: rest => .map [(k, chainMk rest)]

/-- The chain with the innermost node replaced by a value: the tree after
`set` writes `v` at the full path of a fresh chain. -/
def chainSet : List String → Node → Node
  | [], v => v
  | k :: rest, v => .map [(k, chainSet rest v)]

theorem chainMk_isNull (qs : List String) : (chainMk qs).isNull = false := by
  cases qs <;> rfl

theorem chainSet_cons_isNull (k : String) (rest : List String) (v : Node) :
    (chainSet (k :: rest) v).isNull = false := rfl

theorem chainSet_emptyMap : ∀ qs, chainSet qs (.map []) = chainMk qs
  | [] => rfl
  | k :: rest => by
    show Node.map [(k, chainSet rest (.map []))] = Node.map [(k, chainMk rest)]
    rw [chainSet_emptyMap rest]

theorem pyIsInt_of_ne {q : String} (h : q ≠ "") : pyIsInt q = .ok (isIntLex q) := by
  unfold pyIsInt
  cases hd : q.data with
  | nil =>
    exfalso
    apply h
    apply String.ext
    rw [hd]
  | cons c rest => rfl

/-- `trailOf qs` is the accumulated `parent_path` after the loop of
`initialise_recursive` has processed the segments `qs`. -/
def trailOf (qs : List String) : String :=
  if qs = [] then "" else joinDot qs ++ "."

theorem joinDot_concat : ∀ (qs : List String) (r : String), qs ≠ [] →
    joinDot (qs ++ [r]) = joinDot qs ++ "." ++ r
  | [], r, h => absurd rfl h
  | [x], r, _ => rfl
  | x :: y :: rest, r, _ => by
    show x ++ "." ++ joinDot ((y :: rest) ++ [r]) = (x ++ "." ++ joinDot (y :: rest)) ++ "." ++ r
    rw [joinDot_concat (y :: rest) r (by simp), ← String.append_assoc, ← String.append_assoc]

theorem trailOf_append (qs : List String) (r : String) :
    trailOf qs ++ r = joinDot (qs ++ [r]) := by
  cases qs with
  | nil =>
    show "" ++ r = joinDot [r]
    rw [String.empty_append]
    rfl
  | cons x rest =>
    unfold trailOf
    rw [if_neg (by simp), joinDot_concat (x :: rest) r (by simp)]

theorem goGet_chainMk : ∀ (qs : List String),
    (∀ q ∈ qs, q ≠ "" ∧ isIntLex q = false) →
    goGet (chainMk qs) qs .null = .ok (.map ([] : List (String × Node)))
  | [], _ => rfl
  | q :: rest, hgood => by
    obtain ⟨hq1, hq2⟩ := hgood q (List.mem_cons_self q rest)
    unfold goGet goGetStep
    rw [pyIsInt_of_ne hq1, hq2]
    show (match mapGet [(q, chainMk rest)] q with
          | some vv =>
            if vv.isNull = true then Except.ok Node.null
            else goGet vv rest Node.null
          | none => Except.ok Node.null) = _
    have hg : mapGet [(q, chainMk rest)] q = some (chainMk rest) := by
      unfold mapGet
      rw [if_pos rfl]
    rw [hg]
    dsimp only
    rw [if_neg (by simp [chainMk_isNull])]
    exact goGet_chainMk rest (fun x hx => hgood x (List.mem_cons_of_mem q hx))

theorem pyGet_chain_self : ∀ (qs : List String), qs ≠ [] →
    (∀ q ∈ qs, q ≠ "" ∧ isIntLex q = false ∧ '.' ∉ q.data) →
    pyGet (chainMk qs) (joinDot qs) .null = .ok (.map ([] : List (String × Node)))
  | [], h, _ => absurd rfl h
  | [q], _, hgood => by
    obtain ⟨hq1, hq2, hq3⟩ := hgood q (by simp)
    rw [pyGet_joinDot_single (chainMk [q]) .null hq3]
    unfold singleGet
    rw [if_pos (by simp [pyTruthy, chainMk])]
    show (match pyContains (chainMk [q]) q with
          | .error e => Except.error e
          | .ok true =>
            match chainMk [q] with
            | .map m2 =>
              match mapGet m2 q with
              | some v2 => (Except.ok v2 : Except PyErr Node)
              | none => Except.error PyErr.keyError
            | _ => Except.error PyErr.typeError
          | .ok false => Except.ok Node.null) = _
    have hc : pyContains (chainMk [q]) q = .ok true := by
      show Except.ok (mapMem [(q, chainMk [])] q) = Except.ok true
      simp [mapMem]
    rw [hc]
    show (match mapGet [(q, chainMk [])] q with
          | some v2 => (Except.ok v2 : Except PyErr Node)
          | none => Except.error PyErr.keyError) = _
    have hg : mapGet [(q, chainMk [])] q = some (chainMk []) := by
      unfold mapGet
      rw [if_pos rfl]
    rw [hg]
    rfl
  | q :: q2 :: rest, _, hgood => by
    rw [pyGet_joinDot_multi (chainMk (q :: q2 :: rest)) .null (by simp)
      (hgood q (by simp)).1 (fun x hx => (hgood x hx).2.2)]
    exact goGet_chainMk (q :: q2 :: rest) (fun x hx => ⟨(hgood x hx).1, (hgood x hx).2.1⟩)

theorem node_isNull_iff {v : Node} : v.isNull = true ↔ v = .null := by
  cases v <;> simp [Node.isNull]

theorem getParent_chain_concat (done : List String) (r : String)
    (hgood : ∀ q ∈ done ++ [r], q ≠ "" ∧ isIntLex q = false ∧ '.' ∉ q.data) :
    pyGetParent (chainMk done) (joinDot (done ++ [r])) =
      .ok (.map ([] : List (String × Node))) := by
  cases done with
  | nil =>
    have hr := hgood r (by simp)
    show pyGetParent (chainMk []) (joinDot [r]) = _
    have h1 : joinDot [r] = r := rfl
    rw [h1]
    unfold pyGetParent
    rw [if_neg (by simp [findsSep, splitDot_nodot hr.2.2])]
    rfl
  | cons d ds =>
    have hfs : findsSep (joinDot ((d :: ds) ++ [r])) = true :=
      findsSep_joinDot_multi (by simp) (hgood d (by simp)).1
        (fun x hx => (hgood x hx).2.2)
    unfold pyGetParent
    rw [if_pos hfs,
      splitDot_joinDot ((d :: ds) ++ [r]) (by simp) (fun x hx => (hgood x hx).2.2),
      List.dropLast_concat]
    exact pyGet_chain_self (d :: ds) (by simp)
      (fun x hx => hgood x (List.mem_append_left [r] hx))

theorem keyExists_chain_concat (done : List String) (r : String)
    (hgood : ∀ q ∈ done ++ [r], q ≠ "" ∧ isIntLex q = false ∧ '.' ∉ q.data) :
    pyKeyExists (chainMk done) (joinDot (done ++ [r])) = .ok false := by
  unfold pyKeyExists
  rw [getParent_chain_concat done r hgood]
  rfl

theorem rset_chain_extend : ∀ (done : List String) (r : String) (v : Node),
    (∀ q ∈ done ++ [r], q ≠ "" ∧ isIntLex q = false) →
    rset (done ++ [r]) v (chainMk done) = .ok (chainSet (done ++ [r]) v)
  | [], r, v, hgood => by
    obtain ⟨hr1, hr2⟩ := hgood r (by simp)
    show rsetSingle r v (.map []) = _
    unfold rsetSingle
    rw [pyIsInt_of_ne hr1, hr2]
    show Except.ok (Node.map (mapSet [] r v)) = _
    rfl
  | d :: ds, r, v, hgood => by
    have hd := hgood d (by simp)
    show rset (d :: (ds ++ [r])) v (.map [(d, chainMk ds)]) = _
    unfold rset
    rw [if_neg (by simp), if_neg hd.1]
    unfold rsetStep
    rw [pyIsInt_of_ne hd.1, hd.2]
    dsimp only
    have hg : mapGet [(d, chainMk ds)] d = some (chainMk ds) := by
      unfold mapGet
      rw [if_pos rfl]
    rw [hg]
    dsimp only
    rw [rset_chain_extend ds r v (fun x hx => hgood x (List.mem_cons_of_mem d hx))]
    show Except.ok (Node.map (mapSet [(d, chainMk ds)] d (chainSet (ds ++ [r]) v))) = _
    unfold mapSet
    rw [if_pos rfl]
    rfl

theorem pySet_chain_concat (done : List String) (r : String) (v : Node)
    (hgood : ∀ q ∈ done ++ [r], q ≠ "" ∧ isIntLex q = false ∧ '.' ∉ q.data) :
    pySet (chainMk done) (some (joinDot (done ++ [r]))) v =
      .ok (chainSet (done ++ [r]) v) := by
  show rset (splitDot (joinDot (done ++ [r]))) v (chainMk done) = _
  rw [splitDot_joinDot (done ++ [r]) (by simp) (fun x hx => (hgood x hx).2.2)]
  exact rset_chain_extend done r v (fun x hx => ⟨(hgood x hx).1, (hgood x hx).2.1⟩)

theorem rset_chain_overwrite : ∀ (qs : List String) (v : Node), qs ≠ [] →
    (∀ q ∈ qs, q ≠ "" ∧ isIntLex q = false) →
    rset qs v (chainMk qs) = .ok (chainSet qs v)
  | [], _, h, _ => absurd rfl h
  | [q], v, _, hgood => by
    obtain ⟨hq1, hq2⟩ := hgood q (by simp)
    show rsetSingle q v (.map [(q, chainMk [])]) = _
    unfold rsetSingle
    rw [pyIsInt_of_ne hq1, hq2]
    show Except.ok (Node.map (mapSet [(q, chainMk [])] q v)) = _
    unfold mapSet
    rw [if_pos rfl]
    rfl
  | q :: q2 :: qs, v, _, hgood => by
    have hq := hgood q (by simp)
    show rset (q :: (q2 :: qs)) v (.map [(q, chainMk (q2 :: qs))]) = _
    unfold rset
    rw [if_neg (by simp), if_neg hq.1]
    unfold rsetStep
    rw [pyIsInt_of_ne hq.1, hq.2]
    dsimp only
    have hg : mapGet [(q, chainMk (q2 :: qs))] q = some (chainMk (q2 :: qs)) := by
      unfold mapGet
      rw [if_pos rfl]
    rw [hg]
    dsimp only
    rw [rset_chain_overwrite (q2 :: qs) v (by simp)
      (fun x hx => hgood x (List.mem_cons_of_mem q hx))]
    show Except.ok (Node.map (mapSet [(q, chainMk (q2 :: qs))] q (chainSet (q2 :: qs) v))) = _
    unfold mapSet
    rw [if_pos rfl]
    rfl

theorem goGet_chainSet : ∀ (qs : List String) (v : Node), qs ≠ [] →
    (∀ q ∈ qs, q ≠ "" ∧ isIntLex q = false) →
    goGet (chainSet qs v) qs .null = .ok v
  | [], _, h, _ => absurd rfl h
  | [q], v, _, hgood => by
    obtain ⟨hq1, hq2⟩ := hgood q (by simp)
    unfold goGet goGetStep
    rw [pyIsInt_of_ne hq1, hq2]
    show (match mapGet [(q, chainSet [] v)] q with
          | some vv =>
            if vv.isNull = true then Except.ok Node.null
            else goGet vv [] Node.null
          | none => Except.ok Node.null) = Except.ok v
    have hg : mapGet [(q, chainSet [] v)] q = some v := by
      unfold mapGet
      rw [if_pos rfl]
      rfl
    rw [hg]
    dsimp only
    by_cases hv : v.isNull = true
    · rw [if_pos hv, node_isNull_iff.mp hv]
    · rw [if_neg hv]
      rfl
  | q :: q2 :: qs, v, _, hgood => by
    obtain ⟨hq1, hq2⟩ := hgood q (by simp)
    unfold goGet goGetStep
    rw [pyIsInt_of_ne hq1, hq2]
    show (match mapGet [(q, chainSet (q2 :: qs) v)] q with
          | some vv =>
            if vv.isNull = true then Except.ok Node.null
            else goGet vv (q2 :: qs) Node.null
          | none => Except.ok Node.null) = Except.ok v
    have hg : mapGet [(q, chainSet (q2 :: qs) v)] q = some (chainSet (q2 :: qs) v) := by
      unfold mapGet
      rw [if_pos rfl]
    rw [hg]
    dsimp only
    rw [if_neg (by simp [chainSet_cons_isNull])]
    exact goGet_chainSet (q2 :: qs) v (by simp)
      (fun x hx => hgood x (List.mem_cons_of_mem q hx))

theorem pyGet_chainSet (qs : List String) (v : Node) (hne : qs ≠ [])
    (hgood : ∀ q ∈ qs, q ≠ "" ∧ isIntLex q = false ∧ '.' ∉ q.data) :
    pyGet (chainSet qs v) (joinDot qs) .null = .ok v := by
  match qs, hne with
  | [q], _ =>
    rw [pyGet_joinDot_single _ .null (hgood q (by simp)).2.2]
    unfold singleGet
    rw [if_pos (by simp [pyTruthy, chainSet])]
    show (match pyContains (chainSet [q] v) q with
          | .error e => Except.error e
          | .ok true =>
            match chainSet [q] v with
            | .map m2 =>
              match mapGet m2 q with
              | some v2 => (Except.ok v2 : Except PyErr Node)
              | none => Except.error PyErr.keyError
            | _ => Except.error PyErr.typeError
          | .ok false => Except.ok Node.null) = Except.ok v
    have hc : pyContains (chainSet [q] v) q = .ok true := by
      show Except.ok (mapMem [(q, chainSet [] v)] q) = Except.ok true
      simp [mapMem]
    rw [hc]
    show (match mapGet [(q, chainSet [] v)] q with
          | some v2 => (Except.ok v2 : Except PyErr Node)
          | none => Except.error PyErr.keyError) = Except.ok v
    have hg : mapGet [(q, chainSet [] v)] q = some v := by
      unfold mapGet
      rw [if_pos rfl]
      rfl
    rw [hg]
  | q :: q2 :: qs, _ =>
    rw [pyGet_joinDot_multi _ .null (by simp) (hgood q (by simp)).1
      (fun x hx => (hgood x hx).2.2)]
    exact goGet_chainSet (q :: q2 :: qs) v (by simp)
      (fun x hx => ⟨(hgood x hx).1, (hgood x hx).2.1⟩)

theorem initRecLoop_chain : ∀ (rest done : List String),
    (∀ q ∈ done ++ rest, q ≠ "" ∧ isIntLex q = false ∧ '.' ∉ q.data) →
    initRecLoop (chainMk done) rest (trailOf done) = .ok (chainMk (done ++ rest))
  | [], done, _ => by
    rw [List.append_nil]
    rfl
  | r :: rest, done, hgood => by
    have hgr : ∀ q ∈ done ++ [r], q ≠ "" ∧ isIntLex q = false ∧ '.' ∉ q.data := by
      intro q hq
      apply hgood
      rcases List.mem_append.mp hq with h | h
      · exact List.mem_append_left _ h
      · simp at h
        subst h
        exact List.mem_append_right _ (by simp)
    unfold initRecLoop
    dsimp only
    rw [trailOf_append done r, keyExists_chain_concat done r hgr]
    dsimp only
    rw [getParent_chain_concat done r hgr]
    dsimp only
    rw [pyIsInt_of_ne (hgr r (by simp)).1, (hgr r (by simp)).2.1]
    dsimp only
    rw [pySet_chain_concat done r (.map []) hgr, chainSet_emptyMap]
    dsimp only
    have htr : joinDot (done ++ [r]) ++ "." = trailOf (done ++ [r]) := by
      unfold trailOf
      rw [if_neg (by simp)]
    rw [htr, initRecLoop_chain rest (done ++ [r]) (by
      intro q hq
      apply hgood
      rwa [List.append_assoc] at hq)]
    rw [List.append_assoc]
    rfl

/-- C7 counterexample: "a.0" is a previously-absent dotted path over the
empty tree, yet `initialise_recursive("a.0")` raises `RuntimeError` (a
numeric segment under a dict parent is a structure conflict; sequences are
never auto-created), so the claimed init-then-set success does not hold for
every absent dotted path. -/
theorem c7_counterexample_numeric_segment :
    initialiseRecursive (.map []) "a.0" =
      .error (.runtimeError, .map [("a", .map [])]) := rfl

/-- C7 (amended): over the initially empty tree, for every dotted path all
of whose segments are non-empty and not integer-like,
`initialise_recursive(p)` succeeds and yields the chain of nested singleton
maps along the path, `set(p, v)` then succeeds, and `get(p)` afterwards
returns `v`. (A numeric segment, as in "a.0", makes `initialise_recursive`
raise `RuntimeError`, and an empty segment raises `IndexError`.) -/
theorem c7_init_recursive_then_set_roundtrip (p : String) (v : Node)
    (hgood : ∀ q ∈ splitDot p, q ≠ "" ∧ isIntLex q = false) :
    initialiseRecursive (.map []) p = .ok (chainMk (splitDot p)) ∧
    pySet (chainMk (splitDot p)) (some p) v = .ok (chainSet (splitDot p) v) ∧
    pyGet (chainSet (splitDot p) v) p .null = .ok v := by
  have hdf := splitDot_dotfree p
  have hgood3 : ∀ q ∈ splitDot p, q ≠ "" ∧ isIntLex q = false ∧ '.' ∉ q.data :=
    fun q hq => ⟨(hgood q hq).1, (hgood q hq).2, hdf q hq⟩
  have hne := splitDot_ne_nil p
  refine ⟨?_, ?_, ?_⟩
  · have h := initRecLoop_chain (splitDot p) [] (by simpa using hgood3)
    exact h
  · show rset (splitDot p) v (chainMk (splitDot p)) = _
    exact rset_chain_overwrite (splitDot p) v hne hgood
  · have h := pyGet_chainSet (splitDot p) v hne hgood3
    rwa [joinDot_splitDot p] at h

/-- Witness for C7 at the path "ab.cd" with the value 7. -/
theorem c7_init_recursive_then_set_roundtrip_witness :
    initialiseRecursive (.map []) "ab.cd" = .ok (chainMk (splitDot "ab.cd")) ∧
    pySet (chainMk (splitDot "ab.cd")) (some "ab.cd") (.int 7) =
      .ok (chainSet (splitDot "ab.cd") (.int 7)) ∧
    pyGet (chainSet (splitDot "ab.cd") (.int 7)) "ab.cd" .null = .ok (.int 7) :=
  c7_init_recursive_then_set_roundtrip "ab.cd" (.int 7) (by decide)
